import Mathlib

/-!
Verification of the vault-cli request-translation layer
(`.github/skills/obsidian-vault/vault-cli.py`).

The Python program is shallowly embedded: JSON values become the
inductive `JVal`, Python dictionaries become association lists with
unique keys, strings are Lean strings (both Python and Lean strings are
sequences of unicode code points, so `len`/slicing agree), and the
network is an oracle `Request → Outcome` supplied to the runner.  The
outcome of `urllib.request.urlopen` is modelled by `Outcome`; the result
of `json.loads` on a response body is part of the outcome (`Body.json j`
means the body is valid JSON decoding to `j`, `Body.text s` means a
nonempty body that is not valid JSON, `Body.empty` an empty body).
-/

/-- JSON/Python value as handled by the program.  Numbers are modelled as
integers: the program never computes with numeric payload values, it only
passes them through, so this loses nothing the claims depend on. -/
inductive JVal where
  | null
  | bool (b : Bool)
  | num (n : Int)
  | str (s : String)
  | arr (elems : List JVal)
  | obj (fields : List (String × JVal))

/-- Python `d.get(k, default)` on a dictionary modelled as an association
list (Python dictionaries have unique keys, so first match is the match). -/
def dictGet {α : Type} (fields : List (String × α)) (k : String) (d : α) : α :=
  match fields.find? (fun kv => kv.1 == k) with
  | some kv => kv.2
  | none => d

/-- Python `d[k] = v`: replace the value in place when the key is present,
append the new pair otherwise (insertion-order semantics of dict). -/
def dictSet {α : Type} (fields : List (String × α)) (k : String) (v : α) :
    List (String × α) :=
  if fields.any (fun kv => kv.1 == k) then
    fields.map (fun kv => if kv.1 == k then (k, v) else kv)
  else
    fields ++ [(k, v)]

/-- Python `d.pop(k, None)`: the dictionary with key `k` removed.  On a
real dictionary (unique keys) this is exactly the filter below. -/
def dictPop {α : Type} (fields : List (String × α)) (k : String) :
    List (String × α) :=
  fields.filter (fun kv => kv.1 != k)

/-- Python `d.update(extra)`: fold `extra` into `base`, replacing existing
keys in place and appending new ones. -/
def dictUpdate {α : Type} (base extra : List (String × α)) :
    List (String × α) :=
  extra.foldl (fun acc kv => dictSet acc kv.1 kv.2) base

/-- Python truthiness of a JSON value (`if x:`). -/
def pyTruthy : JVal → Bool
  | .null => false
  | .bool b => b
  | .num n => n != 0
  | .str s => s != ""
  | .arr l => !l.isEmpty
  | .obj f => !f.isEmpty

/-- Python `s.rstrip(ch)`: drop trailing occurrences of one character. -/
def pyRstrip (s : String) (ch : Char) : String :=
  ⟨((s.data.reverse.dropWhile (fun c => c == ch)).reverse)⟩

/-- Python `l[:k]` on a list, for an arbitrary integer bound `k` (negative
bounds count from the end, as in Python slicing). -/
def pySliceList {α : Type} (l : List α) (k : Int) : List α :=
  if 0 ≤ k then l.take k.toNat
  else l.take (l.length - min l.length k.natAbs)

/-- Python `s[:k]` on a string (same slicing rule, on code points). -/
def pySliceStr (s : String) (k : Int) : String :=
  ⟨(pySliceList s.data k)⟩

/-- UTF-8 encoding of one code point, as the list of its byte values.
Mirrors how `urllib.parse.quote` operates on the UTF-8 encoding of the
path string. -/
def utf8Bytes (c : Char) : List Nat :=
  let n := c.toNat
  if n < 0x80 then [n]
  else if n < 0x800 then [0xC0 + n / 0x40, 0x80 + n % 0x40]
  else if n < 0x10000 then
    [0xE0 + n / 0x1000, 0x80 + (n / 0x40) % 0x40, 0x80 + n % 0x40]
  else
    [0xF0 + n / 0x40000, 0x80 + (n / 0x1000) % 0x40,
     0x80 + (n / 0x40) % 0x40, 0x80 + n % 0x40]

/-- UTF-8 bytes of a whole string. -/
def strBytes (s : String) : List Nat :=
  (s.data.map utf8Bytes).flatten

/-- Upper-case hexadecimal digit for a value below 16, as produced by the
percent-encoder of `urllib.parse.quote`. -/
def hexUpper (n : Nat) : Char :=
  if n < 10 then Char.ofNat (48 + n) else Char.ofNat (55 + n)

/-- Bytes that `urllib.parse.quote` never encodes (its always-safe set):
ASCII letters, digits, and the four characters in the string made of
underscore, dot, dash and tilde.  With `safe` given as the empty string
these are the only bytes left unencoded. -/
def isAlwaysSafeByte (b : Nat) : Bool :=
  (65 ≤ b && b ≤ 90) || (97 ≤ b && b ≤ 122) || (48 ≤ b && b ≤ 57) ||
    b == 45 || b == 46 || b == 95 || b == 126

/-- Percent-encoding of one byte per `urllib.parse.quote` with empty
`safe` set: safe bytes pass through, every other byte becomes a percent
escape with two upper-case hex digits. -/
def encByte (b : Nat) : String :=
  if isAlwaysSafeByte b then ⟨[Char.ofNat b]⟩
  else ⟨['%', hexUpper (b / 16), hexUpper (b % 16)]⟩

/-- Model of Python `urllib.parse.quote(s, safe=sEmpty)` where `sEmpty`
is the empty string: percent-encode every unsafe byte of the UTF-8
encoding of `s`. -/
def pyQuote (s : String) : String :=
  ⟨((strBytes s).map (fun b => (encByte b).data)).flatten⟩

/-- Model of `urllib.parse.quote_plus` with empty safe set, as used by
`urllib.parse.urlencode`: like `pyQuote` but a space byte becomes a plus
sign. -/
def encBytePlus (b : Nat) : String :=
  if b == 32 then "+" else encByte b

/-- Percent-plus-encoding of a whole string (`quote_plus`). -/
def pyQuotePlus (s : String) : String :=
  ⟨((strBytes s).map (fun b => (encBytePlus b).data)).flatten⟩

/-- The query string produced by
`urllib.parse.urlencode` applied to the two-key dictionary with keys
`query` and `contextLength`, in insertion order (`VaultClient.search`). -/
def urlencodeSearch (query : String) (contextLength : Int) : String :=
  "query=" ++ pyQuotePlus query ++ "&contextLength=" ++ toString contextLength

/-- The result envelope dictionary built by `VaultClient._request` and
post-processed by `main`.  `data = none` / `error = none` mean the key is
absent from the dictionary; `data = some JVal.null` is the Python entry
mapping the data key to `None`. -/
structure Envelope where
  ok : Bool
  data : Option JVal
  error : Option JVal
  code : Option Nat

/-- One HTTP request as assembled by `VaultClient._request`: method, full
URL, optional body (the string whose UTF-8 encoding is sent), and the
final header dictionary. -/
structure Request where
  method : String
  url : String
  body : Option String
  headers : List (String × String)

/-- Decode status of a response body.  `json j` means `json.loads`
succeeds with value `j`; `text s` means a nonempty body whose decoded
text is `s` and which is not valid JSON; `empty` means a zero-byte body
(Python `if content:` is false). -/
inductive Body where
  | empty
  | json (j : JVal)
  | text (s : String)

/-- Outcome of `urllib.request.urlopen` for one request: a response with
a success status carrying a body; an `HTTPError` with status code, the
text of `str(e)` (the raw status text) and the decode status of the error
body (`empty` also covers a missing `e.fp`); or a `URLError` with its
reason text. -/
inductive Outcome where
  | success (body : Body)
  | httpError (code : Nat) (statusText : String) (body : Body)
  | urlError (reason : String)

/-- Normalisation of a request outcome into the result envelope, exactly
the try/except ladder of `VaultClient._request` lines 62-80:
success with JSON body, success with non-JSON text, success with empty
body, HTTP error with message extraction from a JSON object body
(`error_data.get` with `str(e)` as default; any non-object JSON body
makes the attribute access raise and falls into the bare except), and
connection-level failure. -/
def normalizeOutcome : Outcome → Envelope
  | .success .empty => ⟨true, some .null, none, none⟩
  | .success (.json j) => ⟨true, some j, none, none⟩
  | .success (.text s) => ⟨true, some (.str s), none, none⟩
  | .httpError code statusText body =>
    match body with
    | .json (.obj fields) =>
      ⟨false, none, some (dictGet fields "message" (.str statusText)), some code⟩
    | _ => ⟨false, none, some (.str statusText), some code⟩
  | .urlError reason =>
    ⟨false, none, some (.str ("Connection failed: " ++ reason)), none⟩

/-- The client state: base URL (with trailing slashes stripped at
construction) and API key, as in `VaultClient.__init__`. -/
structure VaultClient where
  base_url : String
  api_key : String

/-- Construction of the client (`VaultClient.__init__` strips trailing
slashes from the base URL). -/
def mkVaultClient (baseUrl apiKey : String) : VaultClient :=
  ⟨pyRstrip baseUrl '/', apiKey⟩

/-- Request assembly of `VaultClient._request` (lines 50-60): URL is base
plus path, headers start from the bearer authorization, are updated with
the per-call headers, and receive the content type when one is given. -/
def VaultClient.request_of (c : VaultClient) (method path : String)
    (body : Option String) (headers : List (String × String))
    (contentType : Option String) : Request :=
  { method := method
    url := c.base_url ++ path
    body := body
    headers :=
      let h0 := [("Authorization", "Bearer " ++ c.api_key)]
      let h1 := dictUpdate h0 headers
      match contentType with
      | some ct => dictSet h1 "Content-Type" ct
      | none => h1 }

/-- Request issued by `VaultClient.search`. -/
def VaultClient.search_req (c : VaultClient) (query : String)
    (contextLength : Int) : Request :=
  c.request_of "POST" ("/search/simple/?" ++ urlencodeSearch query contextLength)
    none [] none

/-- Request issued by `VaultClient.get_note`: the full note path is
percent-encoded as one opaque segment. -/
def VaultClient.get_note_req (c : VaultClient) (path : String) : Request :=
  c.request_of "GET" ("/vault/" ++ pyQuote path) none
    [("Accept", "application/vnd.olrapi.note+json")] none

/-- Request issued by `VaultClient.list_dir`: a nonempty path is stripped
of trailing slashes, percent-encoded as one opaque segment and suffixed
with a slash; the empty path uses the fixed root endpoint. -/
def VaultClient.list_dir_req (c : VaultClient) (path : String) : Request :=
  if path != "" then
    c.request_of "GET" ("/vault/" ++ pyQuote (pyRstrip path '/') ++ "/") none [] none
  else
    c.request_of "GET" "/vault/" none [] none

/-- Request issued by `VaultClient.create_note`. -/
def VaultClient.create_note_req (c : VaultClient) (path content : String) : Request :=
  c.request_of "PUT" ("/vault/" ++ pyQuote path) (some content) []
    (some "text/markdown")

/-- Request issued by `VaultClient.append_note`. -/
def VaultClient.append_note_req (c : VaultClient) (path content : String) : Request :=
  c.request_of "POST" ("/vault/" ++ pyQuote path) (some content) []
    (some "text/markdown")

/-- Request issued by `VaultClient.patch_note`. -/
def VaultClient.patch_note_req (c : VaultClient) (path targetType target operation
    content contentType : String) : Request :=
  c.request_of "PATCH" ("/vault/" ++ pyQuote path) (some content)
    [("Operation", operation), ("Target-Type", targetType), ("Target", target)]
    (some contentType)

/-- Python truthiness of an optional integer argument (`if year and month
and day:` in `VaultClient.daily_append`): present and nonzero. -/
def truthyOptNat : Option Nat → Bool
  | some n => n != 0
  | none => false

/-- Request issued by `VaultClient.daily_append`: with all three date
components present (and truthy) the path embeds them as unpadded decimal
segments, otherwise the period-only path is used. -/
def VaultClient.daily_append_req (c : VaultClient) (content period : String)
    (year month day : Option Nat) : Request :=
  let path :=
    if truthyOptNat year && truthyOptNat month && truthyOptNat day then
      "/periodic/" ++ period ++ "/" ++ Nat.repr (year.getD 0) ++ "/" ++
        Nat.repr (month.getD 0) ++ "/" ++ Nat.repr (day.getD 0) ++ "/"
    else
      "/periodic/" ++ period ++ "/"
  c.request_of "POST" path (some content) [] (some "text/markdown")

/-- Request issued by `VaultClient.delete_note`. -/
def VaultClient.delete_note_req (c : VaultClient) (path : String) : Request :=
  c.request_of "DELETE" ("/vault/" ++ pyQuote path) none [] none

/-- Option-valued map over a list, mirroring a Python list comprehension
that may raise: `none` models an uncaught exception. -/
def optMapM {α β : Type} (f : α → Option β) : List α → Option (List β)
  | [] => some []
  | a :: as =>
    match f a, optMapM f as with
    | some b, some bs => some (b :: bs)
    | _, _ => none

/-- The snippet built for one match object in the search simplification
loop: `m.get` with default empty string, then a 200-character slice.  A
match that is not a dictionary makes the Python attribute access raise; a
context value that is not a string is outside the shapes the remote API
produces and is left unmodelled; both are mapped to `none`. -/
def snippetOfMatch (m : JVal) : Option JVal :=
  match m with
  | .obj mf =>
    match dictGet mf "context" (.str "") with
    | .str s => some (.str (pySliceStr s 200))
    | _ => none
  | _ => none

/-- Simplification of one retained search hit (`main`, search branch):
a compact record with the path (from the filename key, default empty
string) and the score (default 0), plus a snippets key built from the
first three matches when the matches value is truthy.  A truthy matches
value that is not a list makes the Python loop raise (or produce
non-record snippets) and is mapped to `none`. -/
def shapeHit (item : JVal) : Option JVal :=
  match item with
  | .obj fields =>
    let base : List (String × JVal) :=
      [("path", dictGet fields "filename" (.str "")),
       ("score", dictGet fields "score" (.num 0))]
    let matchesVal := dictGet fields "matches" (.arr [])
    if pyTruthy matchesVal then
      match matchesVal with
      | .arr ms =>
        match optMapM snippetOfMatch (ms.take 3) with
        | some sn => some (.obj (base ++ [("snippets", .arr sn)]))
        | none => none
      | _ => none
    else
      some (.obj base)
  | _ => none

/-- Search-result shaping in `main` (lines 257-271): when the envelope is
a success and its payload is a list, the list is sliced to the requested
maximum and every retained hit is simplified; otherwise the envelope
passes through untouched. -/
def shapeSearchEnv (maxResults : Int) (e : Envelope) : Option Envelope :=
  if e.ok then
    match e.data with
    | some (.arr items) =>
      match optMapM shapeHit (pySliceList items maxResults) with
      | some shaped => some { e with data := some (.arr shaped) }
      | none => none
    | _ => some e
  else
    some e

/-- Python truthiness of the optional max-chars argument (`if
result.ok and args.max_chars and ...`): present and nonzero. -/
def truthyOptInt : Option Int → Bool
  | some n => n != 0
  | none => false

/-- Content truncation of the get branch of `main` (lines 275-278): on a
success envelope with a truthy character limit and a dictionary payload,
the content value (default empty string) is replaced by its slice plus
the truncation marker when its length exceeds the limit.  A content value
that is present but not a string makes the Python length call raise and
is mapped to `none`. -/
def shapeGetEnv (maxChars : Option Int) (e : Envelope) : Option Envelope :=
  if e.ok && truthyOptInt maxChars && (match e.data with
      | some (.obj _) => true
      | _ => false) then
    match e.data with
    | some (.obj fields) =>
      match dictGet fields "content" (.str "") with
      | .str content =>
        if (content.length : Int) > maxChars.getD 0 then
          some { e with data := some (.obj (dictSet fields "content"
            (.str (pySliceStr content (maxChars.getD 0) ++ "\n...[truncated]")))) }
        else
          some e
      | _ => none
    | _ => none
  else
    some e

/-- Metadata stripping inside `VaultClient.get_note` (lines 93-95): on a
success envelope with the metadata-only flag and a dictionary payload,
the content key is popped. -/
def getNotePost (metadataOnly : Bool) (e : Envelope) : Envelope :=
  if e.ok && metadataOnly && (match e.data with
      | some (.obj _) => true
      | _ => false) then
    match e.data with
    | some (.obj fields) => { e with data := some (.obj (dictPop fields "content")) }
    | _ => e
  else
    e

/-- Acknowledgment replacement used by the create, append, patch, daily
and delete branches of `main`: on success the payload is replaced by a
small record naming the affected path or target. -/
def ackEnv (e : Envelope) (v : JVal) : Envelope :=
  if e.ok then { e with data := some v } else e

/-- Numeric value of a decimal digit character. -/
def digitVal (c : Char) : Nat := c.toNat - 48

/-- Candidate parses of a month token at the head of the character list,
following the strptime regular expression for the month directive
(two-digit alternatives 10-12 and 01-09 first, then a bare digit 1-9),
each with the remaining input. -/
def monthCands : List Char → List (Nat × List Char)
  | a :: b :: rest =>
    (if (a = '1' ∧ '0' ≤ b ∧ b ≤ '2') ∨ (a = '0' ∧ '1' ≤ b ∧ b ≤ '9') then
      [(10 * digitVal a + digitVal b, rest)] else []) ++
    (if '1' ≤ a ∧ a ≤ '9' then [(digitVal a, b :: rest)] else [])
  | [a] => if '1' ≤ a ∧ a ≤ '9' then [(digitVal a, [])] else []
  | [] => []

/-- Candidate parses of a day token, following the strptime regular
expression for the day directive (alternatives 30-31, 10-29, 01-09, a
bare digit 1-9, and finally a space-padded single digit 1-9, which
strptime also accepts). -/
def dayCands : List Char → List (Nat × List Char)
  | a :: b :: rest =>
    (if (a = '3' ∧ (b = '0' ∨ b = '1')) ∨ ((a = '1' ∨ a = '2') ∧ b.isDigit) ∨
        (a = '0' ∧ '1' ≤ b ∧ b ≤ '9') then
      [(10 * digitVal a + digitVal b, rest)] else []) ++
    (if '1' ≤ a ∧ a ≤ '9' then [(digitVal a, b :: rest)] else []) ++
    (if a = ' ' ∧ '1' ≤ b ∧ b ≤ '9' then [(digitVal b, rest)] else [])
  | [a] => if '1' ≤ a ∧ a ≤ '9' then [(digitVal a, [])] else []
  | [] => []

/-- Gregorian leap-year rule used by the Python datetime module. -/
def isLeap (y : Nat) : Bool :=
  y % 4 == 0 && (y % 100 != 0 || y % 400 == 0)

/-- Days in a month for the given year. -/
def daysInMonth (y m : Nat) : Nat :=
  if m = 2 then (if isLeap y then 29 else 28)
  else if m = 4 ∨ m = 6 ∨ m = 9 ∨ m = 11 then 30
  else 31

/-- Model of `datetime.strptime(s, f)` for the fixed year-month-day
format of the daily command: exactly four year digits, a dash, a month
matching the strptime month regular expression, a dash, a day matching
the day regular expression (space-padded single digits included), end of
input (strptime requires the match to consume the whole string), then
the datetime constructor validation
(year at least 1, day within the month).  Returns the parsed components
or `none` on a ValueError. -/
def parseYMD (s : String) : Option (Nat × Nat × Nat) :=
  match s.data with
  | y1 :: y2 :: y3 :: y4 :: '-' :: rest =>
    if y1.isDigit ∧ y2.isDigit ∧ y3.isDigit ∧ y4.isDigit then
      let y := 1000 * digitVal y1 + 100 * digitVal y2 + 10 * digitVal y3 + digitVal y4
      let full : List (Nat × Nat) :=
        (monthCands rest).foldr (fun mc acc =>
          (match mc.2 with
           | '-' :: r2 =>
             (dayCands r2).foldr (fun dc acc2 =>
               if dc.2 = [] then (mc.1, dc.1) :: acc2 else acc2) []
           | _ => []) ++ acc) []
      match full with
      | md :: _ =>
        if 1 ≤ y ∧ md.2 ≤ daysInMonth y md.1 then some (y, md.1, md.2) else none
      | [] => none
    else none
  | _ => none

/-- The patch target variants of the command line (mutually exclusive
group, exactly one present; `main` lines 297-305 derive the target type,
target value and content type from which one is set). -/
inductive PatchTarget where
  | heading (t : String)
  | frontmatter (f : String)
  | block (r : String)

/-- Target-type and target value derived from the patch target. -/
def resolveTarget : PatchTarget → String × String
  | .heading t => ("heading", t)
  | .frontmatter f => ("frontmatter", f)
  | .block r => ("block", r)

/-- Content type derived from the patch target: JSON for frontmatter,
markdown otherwise. -/
def patchContentType : PatchTarget → String
  | .frontmatter _ => "application/json"
  | _ => "text/markdown"

/-- One invocation of the command layer with already-validated
parameters, one constructor per command of `main`. -/
inductive Command where
  | search (query : String) (maxResults : Int) (contextLength : Int)
  | get (path : String) (metadataOnly : Bool) (maxChars : Option Int)
  | list (path : String)
  | create (path content : String)
  | append (path content : String)
  | patch (path : String) (target : PatchTarget) (operation content : String)
  | daily (content : String) (period : String) (date : Option String)
  | delete (path : String)

/-- Execution of one command against a network oracle, mirroring the
dispatch of `main` (lines 253-327): the first component is the final
envelope (`none` models an uncaught Python exception inside the shaping
code), the second the list of HTTP requests issued. -/
def runCommand (c : VaultClient) (net : Request → Outcome) :
    Command → Option Envelope × List Request
  | .search query maxResults contextLength =>
    let r := c.search_req query contextLength
    (shapeSearchEnv maxResults (normalizeOutcome (net r)), [r])
  | .get path metadataOnly maxChars =>
    let r := c.get_note_req path
    (shapeGetEnv maxChars (getNotePost metadataOnly (normalizeOutcome (net r))), [r])
  | .list path =>
    let r := c.list_dir_req path
    (some (normalizeOutcome (net r)), [r])
  | .create path content =>
    let r := c.create_note_req path content
    (some (ackEnv (normalizeOutcome (net r)) (.obj [("created", .str path)])), [r])
  | .append path content =>
    let r := c.append_note_req path content
    (some (ackEnv (normalizeOutcome (net r)) (.obj [("appended_to", .str path)])), [r])
  | .patch path target operation content =>
    let tt := resolveTarget target
    let r := c.patch_note_req path tt.1 tt.2 operation content (patchContentType target)
    (some (ackEnv (normalizeOutcome (net r))
      (.obj [("patched", .str path), ("target", .str tt.2)])), [r])
  | .daily content period date =>
    let ack := fun e => ackEnv e (.obj [("appended_to", .str (period ++ " note"))])
    match date with
    | some d =>
      if d = "" then
        let r := c.daily_append_req content period none none none
        (some (ack (normalizeOutcome (net r))), [r])
      else
        match parseYMD d with
        | some ymd =>
          let r := c.daily_append_req content period (some ymd.1) (some ymd.2.1)
            (some ymd.2.2)
          (some (ack (normalizeOutcome (net r))), [r])
        | none =>
          (some (ack ⟨false, none,
            some (.str ("Invalid date format: " ++ d ++ ". Use YYYY-MM-DD")), none⟩), [])
    | none =>
      let r := c.daily_append_req content period none none none
      (some (ack (normalizeOutcome (net r))), [r])
  | .delete path =>
    let r := c.delete_note_req path
    (some (ackEnv (normalizeOutcome (net r)) (.obj [("deleted", .str path)])), [r])

/-- The envelope invariant of the specification: the payload key and the
error key are populated mutually exclusively, and the ok flag is true
exactly when the payload key is populated. -/
def envelopeWf (e : Envelope) : Prop :=
  e.data.isSome = !e.error.isSome ∧ e.ok = e.data.isSome

/-- Every envelope produced by the request normalisation satisfies the
envelope invariant. -/
theorem normalizeOutcome_wf (o : Outcome) : envelopeWf (normalizeOutcome o) := by
  rcases o with b | ⟨code, st, b⟩ | r
  · rcases b <;> exact ⟨rfl, rfl⟩
  · rcases b with _ | j | s
    · exact ⟨rfl, rfl⟩
    · rcases j <;> exact ⟨rfl, rfl⟩
    · exact ⟨rfl, rfl⟩
  · exact ⟨rfl, rfl⟩

/-- Acknowledgment replacement preserves the envelope invariant. -/
theorem ackEnv_wf (e : Envelope) (v : JVal) (h : envelopeWf e) :
    envelopeWf (ackEnv e v) := by
  obtain ⟨ok, data, error, code⟩ := e
  obtain ⟨h1, h2⟩ := h
  simp only [envelopeWf, ackEnv] at *
  cases ok <;> simp_all

/-- Metadata stripping preserves the envelope invariant. -/
theorem getNotePost_wf (m : Bool) (e : Envelope) (h : envelopeWf e) :
    envelopeWf (getNotePost m e) := by
  obtain ⟨ok, data, error, code⟩ := e
  obtain ⟨h1, h2⟩ := h
  simp only [envelopeWf, getNotePost] at *
  split
  · rcases data with _ | j
    · simp_all
    · rcases j <;> simp_all
  · exact ⟨h1, h2⟩

/-- Content truncation preserves the envelope invariant. -/
theorem shapeGetEnv_wf (mc : Option Int) (e e' : Envelope) (h : envelopeWf e)
    (hs : shapeGetEnv mc e = some e') : envelopeWf e' := by
  obtain ⟨ok, data, error, code⟩ := e
  obtain ⟨h1, h2⟩ := h
  simp only [envelopeWf] at *
  unfold shapeGetEnv at hs
  repeat' split at hs
  all_goals first
    | (rw [Option.some.injEq] at hs; subst hs; refine ⟨?_, ?_⟩ <;> simp_all)
    | simp at hs

/-- Search shaping preserves the envelope invariant. -/
theorem shapeSearchEnv_wf (mr : Int) (e e' : Envelope) (h : envelopeWf e)
    (hs : shapeSearchEnv mr e = some e') : envelopeWf e' := by
  obtain ⟨ok, data, error, code⟩ := e
  obtain ⟨h1, h2⟩ := h
  simp only [envelopeWf] at *
  unfold shapeSearchEnv at hs
  repeat' split at hs
  all_goals first
    | (rw [Option.some.injEq] at hs; subst hs; refine ⟨?_, ?_⟩ <;> simp_all)
    | simp at hs

def testClient : VaultClient := mkVaultClient "https://127.0.0.1:27124" "key"

def successNet : Request → Outcome := fun _ => .success .empty

/-- Claim C1: for every invocation of any of the eight operations and
every network outcome (success, HTTP error, connection failure, and the
local date-validation failure of the daily command), the envelope the
command layer returns populates exactly one of the payload and error
keys, and its ok flag is true exactly when the payload key is populated. -/
theorem claim_C1 (c : VaultClient) (net : Request → Outcome) (cmd : Command)
    (e : Envelope) (h : (runCommand c net cmd).1 = some e) : envelopeWf e := by
  cases cmd with
  | search query maxResults contextLength =>
    simp only [runCommand] at h
    exact shapeSearchEnv_wf _ _ _ (normalizeOutcome_wf _) h
  | get path metadataOnly maxChars =>
    simp only [runCommand] at h
    exact shapeGetEnv_wf _ _ _ (getNotePost_wf _ _ (normalizeOutcome_wf _)) h
  | list path =>
    simp only [runCommand, Option.some.injEq] at h
    exact h ▸ normalizeOutcome_wf _
  | create path content =>
    simp only [runCommand, Option.some.injEq] at h
    exact h ▸ ackEnv_wf _ _ (normalizeOutcome_wf _)
  | append path content =>
    simp only [runCommand, Option.some.injEq] at h
    exact h ▸ ackEnv_wf _ _ (normalizeOutcome_wf _)
  | patch path target operation content =>
    simp only [runCommand, Option.some.injEq] at h
    exact h ▸ ackEnv_wf _ _ (normalizeOutcome_wf _)
  | daily content period date =>
    rcases date with _ | d
    · simp only [runCommand, Option.some.injEq] at h
      exact h ▸ ackEnv_wf _ _ (normalizeOutcome_wf _)
    · simp only [runCommand] at h
      by_cases hd : d = ""
      · rw [if_pos hd] at h
        simp only [Option.some.injEq] at h
        exact h ▸ ackEnv_wf _ _ (normalizeOutcome_wf _)
      · rw [if_neg hd] at h
        rcases hp : parseYMD d with _ | ymd <;> rw [hp] at h <;>
          simp only [Option.some.injEq] at h
        · exact h ▸ ackEnv_wf _ _ ⟨rfl, rfl⟩
        · exact h ▸ ackEnv_wf _ _ (normalizeOutcome_wf _)
  | delete path =>
    simp only [runCommand, Option.some.injEq] at h
    exact h ▸ ackEnv_wf _ _ (normalizeOutcome_wf _)

/-- Witness for claim C1 at a concrete invocation: a root listing against
a network returning an empty success body. -/
theorem claim_C1_witness : envelopeWf ⟨true, some .null, none, none⟩ :=
  claim_C1 testClient successNet (.list "") ⟨true, some .null, none, none⟩ rfl

/-- Claim C2: on a success response the executor returns the success
envelope variant in all three body cases, with the decoded JSON value,
the raw text, or the absent (null) payload respectively, and never a
failure. -/
theorem claim_C2 (j : JVal) (s : String) :
    normalizeOutcome (.success (.json j)) = ⟨true, some j, none, none⟩ ∧
    normalizeOutcome (.success (.text s)) = ⟨true, some (.str s), none, none⟩ ∧
    normalizeOutcome (.success .empty) = ⟨true, some .null, none, none⟩ ∧
    ∀ b : Body, (normalizeOutcome (.success b)).ok = true ∧
      (normalizeOutcome (.success b)).error = none :=
  ⟨rfl, rfl, rfl, fun b => by cases b <;> exact ⟨rfl, rfl⟩⟩

/-- Claim C3: on an HTTP error the envelope is the failure variant and
always carries the numeric status code; the message is the value of the
message key when the error body decodes to a JSON object carrying one,
and the raw status text in every other case (no message key, non-object
JSON, non-JSON or empty body). -/
theorem claim_C3 (code : Nat) (statusText : String) (b : Body) :
    (normalizeOutcome (.httpError code statusText b)).ok = false ∧
    (normalizeOutcome (.httpError code statusText b)).code = some code ∧
    (∀ fields kv, b = .json (.obj fields) →
      fields.find? (fun kv => kv.1 == "message") = some kv →
      (normalizeOutcome (.httpError code statusText b)).error = some kv.2) ∧
    (∀ fields, b = .json (.obj fields) →
      fields.find? (fun kv => kv.1 == "message") = none →
      (normalizeOutcome (.httpError code statusText b)).error =
        some (.str statusText)) ∧
    ((∀ fields, b ≠ .json (.obj fields)) →
      (normalizeOutcome (.httpError code statusText b)).error =
        some (.str statusText)) := by
  refine ⟨?_, ?_, ?_, ?_, ?_⟩
  · rcases b with _ | j | s
    · rfl
    · rcases j <;> rfl
    · rfl
  · rcases b with _ | j | s
    · rfl
    · rcases j <;> rfl
    · rfl
  · rintro fields kv rfl hf
    simp only [normalizeOutcome, dictGet, hf]
  · rintro fields rfl hf
    simp only [normalizeOutcome, dictGet, hf]
  · intro hb
    rcases b with _ | j | s
    · rfl
    · rcases j with _ | _ | _ | _ | _ | fields
      · rfl
      · rfl
      · rfl
      · rfl
      · rfl
      · exact absurd rfl (hb fields)
    · rfl

/-- Witness for claim C3 at concrete inputs: a 404 whose JSON body
carries a message, and a 500 with a non-JSON body. -/
theorem claim_C3_witness :
    (normalizeOutcome (.httpError 404 "HTTP Error 404: Not Found"
      (.json (.obj [("message", .str "File does not exist")])))).error =
        some (.str "File does not exist") ∧
    (normalizeOutcome (.httpError 500 "HTTP Error 500: Internal Server Error"
      (.text "oops"))).error = some (.str "HTTP Error 500: Internal Server Error") ∧
    (normalizeOutcome (.httpError 404 "HTTP Error 404: Not Found"
      (.json (.obj [("message", .str "File does not exist")])))).code = some 404 :=
  ⟨(claim_C3 404 "HTTP Error 404: Not Found" _).2.2.1
      [("message", .str "File does not exist")] ("message", .str "File does not exist") rfl rfl,
   (claim_C3 500 "HTTP Error 500: Internal Server Error" (.text "oops")).2.2.2.2
      (fun _ h => Body.noConfusion h),
   (claim_C3 404 "HTTP Error 404: Not Found" _).2.1⟩

/-- A zero max-chars limit and an absent one produce the same shaping
behaviour (both are falsy in the Python guard). -/
theorem shapeGetEnv_zero (e : Envelope) : shapeGetEnv (some 0) e = some e := by
  unfold shapeGetEnv
  have : truthyOptInt (some 0) = false := rfl
  rw [this]
  simp

/-- Claim C10: a get-note invocation with max-chars limit 0 performs no
truncation at all: the shaping step is the identity on every envelope,
and the whole command behaves exactly as with an absent limit. -/
theorem claim_C10 (c : VaultClient) (net : Request → Outcome) (path : String)
    (metadataOnly : Bool) (e : Envelope) :
    shapeGetEnv (some 0) e = some e ∧
    runCommand c net (.get path metadataOnly (some 0)) =
      runCommand c net (.get path metadataOnly none) := by
  refine ⟨shapeGetEnv_zero e, ?_⟩
  simp only [runCommand]
  rw [shapeGetEnv_zero]
  unfold shapeGetEnv
  have : truthyOptInt none = false := rfl
  rw [this]
  simp

/-- Claim C9: a daily periodic append without an explicit date issues a
single POST to the period-only periodic path with no date segments; with
the explicit date of the fifth of March 2024 it issues a single POST to
the periodic path embedding year 2024, month 3 and day 5 as unpadded
segments. -/
theorem claim_C9 (c : VaultClient) (net : Request → Outcome) (content : String) :
    ((runCommand c net (.daily content "daily" none)).2.map
        (fun r => (r.method, r.url)) =
      [("POST", c.base_url ++ "/periodic/daily/")]) ∧
    ((runCommand c net (.daily content "daily" (some "2024-03-05"))).2.map
        (fun r => (r.method, r.url)) =
      [("POST", c.base_url ++ "/periodic/daily/2024/3/5/")]) :=
  ⟨rfl, rfl⟩

/-- Claim C8, amended: a daily invocation with a nonempty explicit date
string that the lenient strptime parse rejects returns the local failure
envelope with the descriptive message and issues no request at all. -/
theorem claim_C8_amended (c : VaultClient) (net : Request → Outcome)
    (content period d : String) (hne : ¬ d = "") (hparse : parseYMD d = none) :
    runCommand c net (.daily content period (some d)) =
      (some ⟨false, none,
        some (.str ("Invalid date format: " ++ d ++ ". Use YYYY-MM-DD")), none⟩, []) := by
  simp only [runCommand]
  rw [if_neg hne, hparse]
  rfl

/-- Witness for the amended claim C8 at the concrete invalid date of the
specification example. -/
theorem claim_C8_witness :
    runCommand testClient successNet (.daily "x" "daily" (some "2024-13-40")) =
      (some ⟨false, none,
        some (.str ("Invalid date format: " ++ "2024-13-40" ++ ". Use YYYY-MM-DD")),
        none⟩, []) :=
  claim_C8_amended testClient successNet "x" "daily" "2024-13-40" (by decide) rfl

/-- Counterexample to claim C8 as stated: the date string 2024-3-5 is not
in strict four-two-two digit form, yet the command parses it leniently,
issues one network request, and returns a success envelope rather than a
failure with no request. -/
theorem claim_C8_counterexample :
    (runCommand testClient successNet (.daily "x" "daily" (some "2024-3-5"))).2.length = 1 ∧
    ((runCommand testClient successNet
        (.daily "x" "daily" (some "2024-3-5"))).1.map Envelope.ok = some true) ∧
    (runCommand testClient successNet (.daily "x" "daily" (some "2024-3-5"))).2.map
        Request.url = ["https://127.0.0.1:27124/periodic/daily/2024/3/5/"] :=
  ⟨rfl, rfl, rfl⟩

/-- Lookup after an in-place update always finds the updated value. -/
theorem find?_map_set {α : Type} (f : List (String × α)) (k : String) (v : α) :
    (f.map (fun kv => if kv.1 == k then (k, v) else kv)).find?
        (fun kv => kv.1 == k) =
      if f.any (fun kv => kv.1 == k) then some (k, v) else none := by
  induction f with
  | nil => rfl
  | cons a f ih =>
    by_cases h : (a.1 == k) = true
    · simp only [List.map_cons, if_pos h, List.any_cons, h, Bool.true_or, if_true]
      rw [List.find?_cons_of_pos _ (by simp)]
    · have h9 : (a.1 == k) = false := by
        rwa [Bool.not_eq_true] at h
      rw [List.map_cons, if_neg (by simp [h9]),
        List.find?_cons_of_neg _ (by simp [h9]), List.any_cons, h9, Bool.false_or]
      exact ih

/-- Reading back the key just written by the dictionary-set operation
yields the written value. -/
theorem dictGet_dictSet {α : Type} (f : List (String × α)) (k : String) (v d : α) :
    dictGet (dictSet f k v) k d = v := by
  unfold dictGet dictSet
  by_cases h : f.any (fun kv => kv.1 == k)
  · rw [if_pos h, find?_map_set, if_pos h]
  · rw [if_neg h]
    have hf : f.find? (fun kv => kv.1 == k) = none := by
      rw [List.find?_eq_none]
      intro x hx hc
      exact h (List.any_eq_true.mpr ⟨x, hx, hc⟩)
    rw [List.find?_append, hf]
    simp [List.find?]

/-- Conclusion of the amended claim C4, for a success envelope whose
payload dictionary maps the content key to the string `s`: with a
positive limit, content not longer than the limit passes through the get
shaping unaltered, and longer content is replaced by exactly its first
`limit` characters followed by the truncation marker. -/
def C4Conclusion (limit : Int) (fields : List (String × JVal)) (s : String) : Prop :=
  (((s.length : Int) ≤ limit) →
    shapeGetEnv (some limit) ⟨true, some (.obj fields), none, none⟩ =
      some ⟨true, some (.obj fields), none, none⟩) ∧
  ((limit < (s.length : Int)) →
    ∃ fields',
      shapeGetEnv (some limit) ⟨true, some (.obj fields), none, none⟩ =
        some ⟨true, some (.obj fields'), none, none⟩ ∧
      dictGet fields' "content" (.str "") =
        .str (pySliceStr s limit ++ "\n...[truncated]") ∧
      (pySliceStr s limit).length = limit.toNat)

/-- Claim C4, amended to positive limits (the claim is false at limit 0,
where the falsy guard disables truncation entirely): for every positive
maximum-character limit, short content passes through unaltered and long
content becomes exactly the limit-many leading characters plus the
truncation marker. -/
theorem claim_C4_amended (limit : Int) (fields : List (String × JVal)) (s : String)
    (hpos : 0 < limit) (hc : dictGet fields "content" (.str "") = .str s) :
    C4Conclusion limit fields s := by
  have htr : truthyOptInt (some limit) = true := by
    simp only [truthyOptInt, bne_iff_ne]
    omega
  constructor
  · intro hle
    unfold shapeGetEnv
    simp only [htr]
    simp only [Bool.and_true, Bool.true_and]
    rw [hc]
    simp only [Option.getD_some]
    rw [if_neg (by omega : ¬ ((s.length : Int) > limit))]
    simp
  · intro hlt
    refine ⟨dictSet fields "content"
      (.str (pySliceStr s limit ++ "\n...[truncated]")), ?_, ?_, ?_⟩
    · unfold shapeGetEnv
      simp only [htr]
      simp only [Bool.and_true, Bool.true_and]
      rw [hc]
      simp only [Option.getD_some]
      rw [if_pos (by omega : (s.length : Int) > limit)]
      simp
    · exact dictGet_dictSet fields "content" _ _
    · show (pySliceStr s limit).length = limit.toNat
      unfold pySliceStr pySliceList
      rw [if_pos (by omega : (0:Int) ≤ limit)]
      show (s.data.take limit.toNat).length = limit.toNat
      rw [List.length_take]
      have hs : s.length = s.data.length := rfl
      omega

/-- Witness for the amended claim C4: limit 2 on four-character content. -/
theorem claim_C4_witness :
    (0 : Int) < 2 ∧ C4Conclusion 2 [("content", .str "abcd")] "abcd" :=
  ⟨by decide, claim_C4_amended 2 [("content", .str "abcd")] "abcd" (by decide) rfl⟩

/-- Counterexample to claim C4 as stated: at limit 0 the shaping leaves
two-character content untouched, while the claim as stated demands zero
characters followed by the truncation marker. -/
theorem claim_C4_counterexample :
    shapeGetEnv (some 0) ⟨true, some (.obj [("content", .str "ab")]), none, none⟩ =
      some ⟨true, some (.obj [("content", .str "ab")]), none, none⟩ ∧
    "ab" ≠ pySliceStr "ab" 0 ++ "\n...[truncated]" :=
  ⟨shapeGetEnv_zero _, by decide⟩

/-- Popping one key does not disturb the lookup of any other key. -/
theorem find?_dictPop_ne {α : Type} (f : List (String × α)) (j k : String)
    (hk : ¬ k = j) :
    (dictPop f j).find? (fun kv => kv.1 == k) = f.find? (fun kv => kv.1 == k) := by
  unfold dictPop
  induction f with
  | nil => rfl
  | cons a f ih =>
    rcases hj : (a.1 != j) with _ | _
    · have ha : a.1 = j := by
        simpa using hj
      have h9 : (a.1 == k) = false := by
        rw [ha]
        simp only [beq_eq_false_iff_ne, ne_eq]
        intro he
        exact hk he.symm
      simp [List.filter_cons, hj, List.find?_cons, h9, ih]
    · rcases h : (a.1 == k) with _ | _
      · simp [List.filter_cons, hj, List.find?_cons, h, ih]
      · simp [List.filter_cons, hj, List.find?_cons, h]

/-- Dictionary lookup of any other key is unchanged by popping a key. -/
theorem dictGet_dictPop_ne {α : Type} (f : List (String × α)) (j k : String)
    (d : α) (hk : ¬ k = j) : dictGet (dictPop f j) k d = dictGet f k d := by
  unfold dictGet
  rw [find?_dictPop_ne f j k hk]

/-- Conclusion of claim C7 for a success envelope whose payload decodes
to the record `fields`: the metadata-only get strips exactly the content
entries, keeps every other entry in order, and leaves the lookup of every
other key unchanged. -/
def C7Conclusion (e : Envelope) (fields : List (String × JVal)) : Prop :=
  ∃ fields',
    getNotePost true e = { e with data := some (.obj fields') } ∧
    (∀ kv ∈ fields', kv ∈ fields ∧ ¬ kv.1 = "content") ∧
    (∀ kv ∈ fields, ¬ kv.1 = "content" → kv ∈ fields') ∧
    fields'.Sublist fields ∧
    (∀ k d, ¬ k = "content" → dictGet fields' k d = dictGet fields k d)

/-- Claim C7: a successful metadata-only get whose decoded payload is a
record removes the content field when present and leaves every other
field unchanged (membership, order and lookups preserved). -/
theorem claim_C7 (e : Envelope) (fields : List (String × JVal))
    (hok : e.ok = true) (hdata : e.data = some (.obj fields)) :
    C7Conclusion e fields := by
  refine ⟨dictPop fields "content", ?_, ?_, ?_, ?_, ?_⟩
  · obtain ⟨ok, data, error, code⟩ := e
    simp only at hok hdata
    subst hok
    subst hdata
    rfl
  · intro kv hkv
    rw [dictPop, List.mem_filter] at hkv
    refine ⟨hkv.1, ?_⟩
    have h2 := hkv.2
    rwa [bne_iff_ne] at h2
  · intro kv hkv hne
    rw [dictPop, List.mem_filter]
    refine ⟨hkv, ?_⟩
    rwa [bne_iff_ne]
  · exact List.filter_sublist _
  · intro k d hk
    exact dictGet_dictPop_ne fields "content" k d hk

/-- Witness for claim C7 at the example of the specification: the raw
payload with content hello and one tag yields exactly the record with
only the tag. -/
theorem claim_C7_witness :
    getNotePost true ⟨true,
        some (.obj [("content", .str "hello"), ("tags", .arr [.str "x"])]),
        none, none⟩ =
      ⟨true, some (.obj [("tags", .arr [.str "x"])]), none, none⟩ ∧
    C7Conclusion
      ⟨true, some (.obj [("content", .str "hello"), ("tags", .arr [.str "x"])]),
        none, none⟩
      [("content", .str "hello"), ("tags", .arr [.str "x"])] :=
  ⟨rfl, claim_C7 _ _ rfl rfl⟩

/-- Every byte of the UTF-8 encoding of a code point is below 256. -/
theorem utf8Bytes_lt (c : Char) : ∀ b ∈ utf8Bytes c, b < 256 := by
  have hv : c.toNat < 1114112 := by
    have hb : c.toNat = c.val.toNat := rfl
    rcases c.valid with h | ⟨_, h⟩ <;> omega
  intro b hb
  unfold utf8Bytes at hb
  simp only [List.mem_cons, List.mem_singleton, List.not_mem_nil] at hb
  split at hb <;> [skip; split at hb <;> [skip; split at hb]] <;>
    simp only [List.mem_cons, List.mem_singleton, List.not_mem_nil, or_false] at hb <;>
    omega

set_option maxRecDepth 4096 in
/-- The percent-encoding of a byte never contains a slash: safe bytes are
letters, digits, underscore, dot, dash or tilde, and escapes consist of a
percent sign and upper-case hex digits. -/
theorem encByte_no_slash : ∀ b < 256, '/' ∉ (encByte b).data := by
  decide

/-- The percent-encoded form of any string contains no slash character:
the full reference is one opaque URL segment. -/
theorem pyQuote_no_slash (p : String) : ∀ ch ∈ (pyQuote p).data, ¬ ch = '/' := by
  intro ch hch
  unfold pyQuote at hch
  simp only [List.mem_flatten, List.mem_map] at hch
  obtain ⟨l, ⟨b, hb, rfl⟩, hchl⟩ := hch
  have hb256 : b < 256 := by
    unfold strBytes at hb
    simp only [List.mem_flatten, List.mem_map] at hb
    obtain ⟨bl, ⟨c, _, rfl⟩, hbl⟩ := hb
    exact utf8Bytes_lt c b hbl
  intro heq
  exact encByte_no_slash b hb256 (heq ▸ hchl)

/-- Modelled from the claim wording, for comparison with the code: a
listing path that percent-encodes only the trailing component of the
(trailing-slash-stripped) reference, leaving the leading components and
their separators untouched, then appends a slash. -/
def listDirPathClaimed (p : String) : String :=
  let q := pyRstrip p '/'
  let pre : String := ⟨(q.data.reverse.dropWhile (fun c => c != '/')).reverse⟩
  let last : String := ⟨(q.data.reverse.takeWhile (fun c => c != '/')).reverse⟩
  "/vault/" ++ pre ++ pyQuote last ++ "/"

/-- Counterexample to claim C6 as stated: for the two-component directory
reference a/b the code encodes the whole reference as one opaque segment
(slash becomes an escape), not just the trailing component as the claim
describes. -/
theorem claim_C6_counterexample :
    (testClient.list_dir_req "a/b").url = "https://127.0.0.1:27124/vault/a%2Fb/" ∧
    testClient.base_url ++ listDirPathClaimed "a/b" =
      "https://127.0.0.1:27124/vault/a/b/" ∧
    (testClient.list_dir_req "a/b").url ≠
      testClient.base_url ++ listDirPathClaimed "a/b" :=
  ⟨rfl, rfl, by decide⟩

/-- Claim C6, amended: the five document operations percent-encode the
full note reference as a single opaque URL segment (the encoded form
contains no slash, so embedded slashes are escaped); list-directory with
a nonempty path strips trailing slashes, percent-encodes the entire
remaining reference as one opaque segment and appends a slash; the root
listing uses the fixed vault endpoint with no encoding. -/
theorem claim_C6_amended (c : VaultClient)
    (p content targetType target operation contentType : String) :
    (c.get_note_req p).url = (c.base_url ++ "/vault/") ++ pyQuote p ∧
    (c.create_note_req p content).url = (c.base_url ++ "/vault/") ++ pyQuote p ∧
    (c.append_note_req p content).url = (c.base_url ++ "/vault/") ++ pyQuote p ∧
    (c.patch_note_req p targetType target operation content contentType).url =
      (c.base_url ++ "/vault/") ++ pyQuote p ∧
    (c.delete_note_req p).url = (c.base_url ++ "/vault/") ++ pyQuote p ∧
    (∀ ch ∈ (pyQuote p).data, ¬ ch = '/') ∧
    (c.list_dir_req p).url =
      (if p = "" then c.base_url ++ "/vault/"
       else ((c.base_url ++ "/vault/") ++ pyQuote (pyRstrip p '/')) ++ "/") := by
  refine ⟨?_, ?_, ?_, ?_, ?_, pyQuote_no_slash p, ?_⟩ <;>
    simp only [VaultClient.get_note_req, VaultClient.create_note_req,
      VaultClient.append_note_req, VaultClient.patch_note_req,
      VaultClient.delete_note_req, VaultClient.list_dir_req,
      VaultClient.request_of, String.append_assoc]
  by_cases hp : p = ""
  · subst hp
    simp
  · rw [if_neg hp]
    have : (p != "") = true := by
      rwa [bne_iff_ne]
    simp only [this, if_true, String.append_assoc]

/-- A successful option-valued map preserves the length. -/
theorem optMapM_length {α β : Type} (f : α → Option β) (l : List α) (out : List β)
    (h : optMapM f l = some out) : out.length = l.length := by
  induction l generalizing out with
  | nil =>
    simp only [optMapM, Option.some.injEq] at h
    subst h
    rfl
  | cons a as ih =>
    rcases hfa : f a with _ | b
    · simp only [optMapM, hfa] at h
      exact absurd h (by simp)
    · rcases hrest : optMapM f as with _ | bs
      · simp only [optMapM, hfa, hrest] at h
        exact absurd h (by simp)
      · simp only [optMapM, hfa, hrest, Option.some.injEq] at h
        subst h
        simp [ih bs hrest]

/-- A successful option-valued map acts pointwise at every index. -/
theorem optMapM_get {α β : Type} (f : α → Option β) (l : List α) (out : List β)
    (h : optMapM f l = some out) :
    ∀ i : Nat, ∀ b, out[i]? = some b → ∃ a, l[i]? = some a ∧ f a = some b := by
  induction l generalizing out with
  | nil =>
    simp only [optMapM, Option.some.injEq] at h
    subst h
    intro i b hb
    simp at hb
  | cons a as ih =>
    rcases hfa : f a with _ | b0
    · simp only [optMapM, hfa] at h
      exact absurd h (by simp)
    · rcases hrest : optMapM f as with _ | bs
      · simp only [optMapM, hfa, hrest] at h
        exact absurd h (by simp)
      · simp only [optMapM, hfa, hrest, Option.some.injEq] at h
        subst h
        intro i b hb
        cases i with
        | zero =>
          simp only [List.getElem?_cons_zero, Option.some.injEq] at hb ⊢
          subst hb
          exact ⟨a, rfl, hfa⟩
        | succ n =>
          simp only [List.getElem?_cons_succ] at hb ⊢
          exact ih bs hrest n b hb

/-- Every element of a successful option-valued map comes from a source
element. -/
theorem optMapM_mem {α β : Type} (f : α → Option β) (l : List α) (out : List β)
    (h : optMapM f l = some out) : ∀ b ∈ out, ∃ a ∈ l, f a = some b := by
  induction l generalizing out with
  | nil =>
    simp only [optMapM, Option.some.injEq] at h
    subst h
    intro b hb
    simp at hb
  | cons a as ih =>
    rcases hfa : f a with _ | b0
    · simp only [optMapM, hfa] at h
      exact absurd h (by simp)
    · rcases hrest : optMapM f as with _ | bs
      · simp only [optMapM, hfa, hrest] at h
        exact absurd h (by simp)
      · simp only [optMapM, hfa, hrest, Option.some.injEq] at h
        subst h
        intro b hb
        rcases List.mem_cons.mp hb with hb | hb
        · subst hb
          exact ⟨a, List.mem_cons_self _ _, hfa⟩
        · obtain ⟨a2, ha2, hfa2⟩ := ih bs hrest b hb
          exact ⟨a2, List.mem_cons_of_mem _ ha2, hfa2⟩

/-- A snippet produced for one match object is a string of at most 200
characters. -/
theorem snippetOfMatch_spec (m v : JVal) (h : snippetOfMatch m = some v) :
    ∃ t : String, v = .str t ∧ t.length ≤ 200 := by
  rcases m with _ | _ | _ | _ | _ | mf
  · exact absurd h (by simp [snippetOfMatch])
  · exact absurd h (by simp [snippetOfMatch])
  · exact absurd h (by simp [snippetOfMatch])
  · exact absurd h (by simp [snippetOfMatch])
  · exact absurd h (by simp [snippetOfMatch])
  simp only [snippetOfMatch] at h
  rcases hg : dictGet mf "context" (.str "") with _ | _ | _ | s | _ | _
  · simp only [hg] at h
    exact absurd h (by simp)
  · simp only [hg] at h
    exact absurd h (by simp)
  · simp only [hg] at h
    exact absurd h (by simp)
  · simp only [hg, Option.some.injEq] at h
    refine ⟨pySliceStr s 200, h.symm, ?_⟩
    unfold pySliceStr pySliceList
    rw [if_pos (by omega : (0:Int) ≤ 200)]
    show (s.data.take (200:Int).toNat).length ≤ 200
    rw [List.length_take]
    have h200 : (200:Int).toNat = 200 := rfl
    omega
  · simp only [hg] at h
    exact absurd h (by simp)
  · simp only [hg] at h
    exact absurd h (by simp)

/-- Shape of one simplified search hit: the source item is a record, the
entry is a record carrying the path (from the filename key) and the score
(from the score key), the snippets key is present only in the truthy
matches case, and any snippets value is a list of at most three strings
of at most 200 characters each. -/
theorem shapeHit_spec (item entry : JVal) (h : shapeHit item = some entry) :
    ∃ fields efields, item = .obj fields ∧ entry = .obj efields ∧
      dictGet efields "path" .null = dictGet fields "filename" (.str "") ∧
      dictGet efields "score" .null = dictGet fields "score" (.num 0) ∧
      (¬ pyTruthy (dictGet fields "matches" (.arr [])) = true →
        efields.map Prod.fst = ["path", "score"]) ∧
      (efields.map Prod.fst = ["path", "score"] ∨
        efields.map Prod.fst = ["path", "score", "snippets"]) ∧
      (∀ sn, dictGet efields "snippets" .null = .arr sn →
        sn.length ≤ 3 ∧ ∀ v ∈ sn, ∃ t : String, v = .str t ∧ t.length ≤ 200) := by
  rcases item with _ | _ | _ | _ | _ | fields
  · exact absurd h (by simp [shapeHit])
  · exact absurd h (by simp [shapeHit])
  · exact absurd h (by simp [shapeHit])
  · exact absurd h (by simp [shapeHit])
  · exact absurd h (by simp [shapeHit])
  simp only [shapeHit] at h
  by_cases ht : pyTruthy (dictGet fields "matches" (.arr [])) = true
  · rw [if_pos ht] at h
    rcases hm : dictGet fields "matches" (.arr []) with _ | _ | _ | _ | ms | _
    · simp only [hm] at h
      exact absurd h (by simp)
    · simp only [hm] at h
      exact absurd h (by simp)
    · simp only [hm] at h
      exact absurd h (by simp)
    · simp only [hm] at h
      exact absurd h (by simp)
    · simp only [hm] at h
      rcases hsn : optMapM snippetOfMatch (ms.take 3) with _ | sn
      · simp only [hsn] at h
        exact absurd h (by simp)
      · simp only [hsn, Option.some.injEq] at h
        subst h
        refine ⟨fields, _, rfl, rfl, rfl, rfl, fun hf => absurd ht hf, Or.inr rfl, ?_⟩
        intro sn2 hsn2
        have hsn3 : JVal.arr sn = JVal.arr sn2 := hsn2
        rw [JVal.arr.injEq] at hsn3
        subst hsn3
        constructor
        · have hlen := optMapM_length _ _ _ hsn
          rw [List.length_take] at hlen
          omega
        · intro v hv
          obtain ⟨m2, _, hm2⟩ := optMapM_mem _ _ _ hsn v hv
          exact snippetOfMatch_spec m2 v hm2
    · simp only [hm] at h
      exact absurd h (by simp)
  · rw [if_neg ht] at h
    rw [Option.some.injEq] at h
    subst h
    refine ⟨fields, _, rfl, rfl, rfl, rfl, fun _ => rfl, Or.inl rfl, ?_⟩
    intro sn hsn
    exact absurd hsn (by simp [dictGet, List.find?])

/-- Conclusion of claim C5 for the search shaping on a success envelope
whose payload is the raw hit list: the shaped payload is a list with
exactly the minimum of the raw length and the requested maximum many
entries (so exactly the maximum when enough hits exist), and each entry
positionally simplifies the corresponding raw hit: path from filename
with empty default, score with zero default, a snippets key only for
truthy matches, and at most three snippet strings of at most 200
characters each. -/
def C5Conclusion (hits : List JVal) (maxResults : Nat) (e : Envelope) : Prop :=
  ∃ out : List JVal,
    e = ⟨true, some (.arr out), none, none⟩ ∧
    out.length = min hits.length maxResults ∧
    (maxResults ≤ hits.length → out.length = maxResults) ∧
    ∀ i : Nat, ∀ entry, out[i]? = some entry →
      ∃ fields efields,
        hits[i]? = some (.obj fields) ∧
        entry = .obj efields ∧
        dictGet efields "path" .null = dictGet fields "filename" (.str "") ∧
        dictGet efields "score" .null = dictGet fields "score" (.num 0) ∧
        (¬ pyTruthy (dictGet fields "matches" (.arr [])) = true →
          efields.map Prod.fst = ["path", "score"]) ∧
        (efields.map Prod.fst = ["path", "score"] ∨
          efields.map Prod.fst = ["path", "score", "snippets"]) ∧
        (∀ sn, dictGet efields "snippets" .null = .arr sn →
          sn.length ≤ 3 ∧ ∀ v ∈ sn, ∃ t : String, v = .str t ∧ t.length ≤ 200)

/-- Claim C5: search shaping truncates the raw hit list to the requested
maximum count and simplifies every retained hit as described by
C5Conclusion. -/
theorem claim_C5 (hits : List JVal) (maxResults : Nat) (e : Envelope)
    (h : shapeSearchEnv (maxResults : Int)
      ⟨true, some (.arr hits), none, none⟩ = some e) :
    C5Conclusion hits maxResults e := by
  have hslice : pySliceList hits (maxResults : Int) = hits.take maxResults := by
    unfold pySliceList
    rw [if_pos (by omega : (0:Int) ≤ (maxResults : Int)), Int.toNat_natCast]
  simp only [shapeSearchEnv, hslice] at h
  rcases hm : optMapM shapeHit (hits.take maxResults) with _ | shaped
  · simp only [hm, if_true, ite_true] at h
    exact absurd h (by simp)
  · simp only [hm, if_true, ite_true, Option.some.injEq] at h
    subst h
    refine ⟨shaped, rfl, ?_, ?_, ?_⟩
    · have hlen := optMapM_length _ _ _ hm
      rw [List.length_take] at hlen
      omega
    · intro hge
      have hlen := optMapM_length _ _ _ hm
      rw [List.length_take] at hlen
      omega
    · intro i entry hi
      obtain ⟨item, hitem, hsh⟩ := optMapM_get _ _ _ hm i entry hi
      obtain ⟨fields, efields, hif, hrest⟩ := shapeHit_spec item entry hsh
      subst hif
      have hbound : i < maxResults := by
        by_contra hcon
        push_neg at hcon
        rw [List.getElem?_eq_none (by rw [List.length_take]; omega)] at hitem
        exact absurd hitem (by simp)
      rw [List.getElem?_take_of_lt hbound] at hitem
      exact ⟨fields, efields, hitem, hrest⟩

def hitEx : JVal := .obj [("filename", .str "note.md"), ("score", .num 1),
  ("matches", .arr [.obj [("context", .str "ctx")]])]

def shapedHitEx : JVal := .obj [("path", .str "note.md"), ("score", .num 1),
  ("snippets", .arr [.str "ctx"])]

/-- Witness for claim C5: a raw hit list of length 50 with a requested
maximum of 10 shapes to exactly 10 simplified entries. -/
theorem claim_C5_witness :
    C5Conclusion (List.replicate 50 hitEx) 10
      ⟨true, some (.arr (List.replicate 10 shapedHitEx)), none, none⟩ :=
  claim_C5 (List.replicate 50 hitEx) 10 _ (by rfl)
